import Mathlib

/-!
# Verification of the sfcsv CSV line parser/encoder

Shallow embedding of `sfcsv.h` (namespace `sfcsv`): the quote-run-counting
`parse_line` state machine with strict/loose modes, and the `encode_field` /
`encode_line` encoders.  Strings are modelled as `List Char`; the caller's
output iterator is modelled by the first component of the result pair, which
holds every field written to the sink even when the call ends in an error
(in the C++ code the fields written through the output iterator before a
throw remain with the caller).
-/

set_option maxHeartbeats 1000000

/-- Parser mode, `enum class mode { strict, loose }` in `sfcsv.h`. -/
inductive Mode where
  | strict : Mode
  | loose : Mode
deriving DecidableEq

/-- The three `csv_error` conditions thrown by `sfcsv::parse_line`. -/
inductive ParseError where
  | unexpectedQuoteInUnquotedField : ParseError
  | invalidSeparatorAfterQuotedField : ParseError
  | newlineOutsideQuotedField : ParseError
deriving DecidableEq

/-- Length of the maximal run of quote characters at the head of the list:
`std::distance(it, last_quote)` where `last_quote = std::find_if(it, end, ≠ quote)`. -/
def countQuotes : List Char → Nat
  | [] => 0
  | c :: rest => if c = '\"' then countQuotes rest + 1 else 0

/-- The remainder of the list after the maximal head run of quote characters:
the suffix starting at `last_quote`. -/
def dropQuotes : List Char → List Char
  | [] => []
  | c :: rest => if c = '\"' then dropQuotes rest else c :: rest

theorem dropQuotes_length_le (l : List Char) : (dropQuotes l).length ≤ l.length := by
  induction l with
  | nil => simp [dropQuotes]
  | cons c rest ih =>
    simp only [dropQuotes]
    split
    · exact Nat.le_succ_of_le ih
    · simp

/-- `l ≠ end ∧ *l ≠ sep`: the next character exists and is not the separator. -/
def head_ne_sep (l : List Char) (sep : Char) : Prop :=
  match l with
  | [] => False
  | d :: _ => d ≠ sep

instance (l : List Char) (sep : Char) : Decidable (head_ne_sep l sep) := by
  unfold head_ne_sep
  split <;> infer_instance

/-- Embedding of `sfcsv::parse_line` from `sfcsv.h`.  Arguments after `sep` and
`pmode`: the remaining input `s`, the `in_quotes` flag and the `field`
accumulator (initially `false` and empty).  The result is the list of fields
written to the output iterator together with the error thrown, if any. -/
def parse_line (sep : Char) (pmode : Mode) :
    List Char → Bool → List Char → List (List Char) × Option ParseError
  | [], _, field =>
    -- Push last field in result
    ([field], none)
  | c :: rest, in_quotes, field =>
    if c = '\"' then
      if in_quotes = false ∧ field ≠ [] then
        if pmode = Mode.loose then
          parse_line sep pmode rest in_quotes (field ++ ['\"'])
        else
          ([], some ParseError.unexpectedQuoteInUnquotedField)
      else
        -- Find one past last quote
        let num_quotes := countQuotes rest + 1
        let tl := dropQuotes rest
        if in_quotes = true ∧ num_quotes % 2 = 1 ∧ head_ne_sep tl sep ∧ pmode = Mode.loose then
          parse_line sep pmode tl in_quotes (field ++ List.replicate num_quotes '\"')
        else
          -- Ignore one quote for an enclosing group, two for an empty field, zero otherwise
          let ignore_quotes : Nat :=
            if num_quotes % 2 = 1 then 1 else if field = [] then 2 else 0
          let field2 := field ++ List.replicate ((num_quotes - ignore_quotes) / 2) '\"'
          let in_quotes2 := if num_quotes % 2 = 1 then !in_quotes else in_quotes
          if in_quotes2 = false ∧ head_ne_sep tl sep ∧ pmode = Mode.strict then
            ([], some ParseError.invalidSeparatorAfterQuotedField)
          else
            parse_line sep pmode tl in_quotes2 field2
    else if c = sep ∧ in_quotes = false then
      -- Separator ends field
      let r := parse_line sep pmode rest in_quotes []
      (field :: r.1, r.2)
    else if c = '\n' ∧ in_quotes = false ∧ pmode = Mode.strict then
      ([], some ParseError.newlineOutsideQuotedField)
    else
      parse_line sep pmode rest in_quotes (field ++ [c])
termination_by s _ _ => s.length
decreasing_by
  all_goals simp only [List.length_cons]
  · omega
  · exact Nat.lt_succ_of_le (dropQuotes_length_le rest)
  · exact Nat.lt_succ_of_le (dropQuotes_length_le rest)
  · omega
  · omega

/-- `decode line sep mode`: run `parse_line` on a whole line from the initial
state; an error wins over the partially written output. -/
def decode (s : List Char) (sep : Char) (pmode : Mode) :
    Except ParseError (List (List Char)) :=
  match parse_line sep pmode s false [] with
  | (fs, none) => Except.ok fs
  | (_, some e) => Except.error e

/-- The fields the caller's output sink has received after a `parse_line` call,
whether or not the call ended in an error. -/
def sink_fields (s : List Char) (sep : Char) (pmode : Mode) : List (List Char) :=
  (parse_line sep pmode s false []).1

/-- The loop body of `sfcsv::encode_field`: every quote character doubled. -/
def escape_quotes : List Char → List Char
  | [] => []
  | c :: rest => if c = '\"' then c :: c :: escape_quotes rest else c :: escape_quotes rest

/-- Embedding of `sfcsv::encode_field`: opening quote, the field with quotes
doubled, closing quote. -/
def encode_field (s : List Char) : List Char :=
  '\"' :: escape_quotes s ++ ['\"']

/-- Embedding of `sfcsv::encode_line` over a list of fields, the output
iterator writes concatenated into one line; `sep` is a character sequence. -/
def encode_line : List (List Char) → List Char → List Char
  | [], _ => []
  | f :: rest, sep =>
    match rest with
    | [] => encode_field f
    | _ :: _ => encode_field f ++ sep ++ encode_line rest sep

/-- Mirror of the `parse_line` scan that counts how many times the
"separator ends field" branch runs, i.e. the number of separator characters
encountered while not inside a quoted field. -/
def sep_count (sep : Char) (pmode : Mode) : List Char → Bool → List Char → Nat
  | [], _, _ => 0
  | c :: rest, in_quotes, field =>
    if c = '\"' then
      if in_quotes = false ∧ field ≠ [] then
        if pmode = Mode.loose then
          sep_count sep pmode rest in_quotes (field ++ ['\"'])
        else
          0
      else
        let num_quotes := countQuotes rest + 1
        let tl := dropQuotes rest
        if in_quotes = true ∧ num_quotes % 2 = 1 ∧ head_ne_sep tl sep ∧ pmode = Mode.loose then
          sep_count sep pmode tl in_quotes (field ++ List.replicate num_quotes '\"')
        else
          let ignore_quotes : Nat :=
            if num_quotes % 2 = 1 then 1 else if field = [] then 2 else 0
          let field2 := field ++ List.replicate ((num_quotes - ignore_quotes) / 2) '\"'
          let in_quotes2 := if num_quotes % 2 = 1 then !in_quotes else in_quotes
          if in_quotes2 = false ∧ head_ne_sep tl sep ∧ pmode = Mode.strict then
            0
          else
            sep_count sep pmode tl in_quotes2 field2
    else if c = sep ∧ in_quotes = false then
      sep_count sep pmode rest in_quotes [] + 1
    else if c = '\n' ∧ in_quotes = false ∧ pmode = Mode.strict then
      0
    else
      sep_count sep pmode rest in_quotes (field ++ [c])
termination_by s _ _ => s.length
decreasing_by
  all_goals simp only [List.length_cons]
  · omega
  · exact Nat.lt_succ_of_le (dropQuotes_length_le rest)
  · exact Nat.lt_succ_of_le (dropQuotes_length_le rest)
  · omega
  · omega

theorem countQuotes_replicate (k : Nat) (tl : List Char) (htl : tl.head? ≠ some '\"') :
    countQuotes (List.replicate k '\"' ++ tl) = k := by
  induction k with
  | zero =>
    cases tl with
    | nil => simp [countQuotes]
    | cons d l =>
      have hd : d ≠ '\"' := by
        intro h
        exact htl (by simp [h])
      simp [countQuotes, hd]
  | succ k ih => simp [List.replicate_succ, countQuotes, ih]

theorem dropQuotes_replicate (k : Nat) (tl : List Char) (htl : tl.head? ≠ some '\"') :
    dropQuotes (List.replicate k '\"' ++ tl) = tl := by
  induction k with
  | zero =>
    cases tl with
    | nil => simp [dropQuotes]
    | cons d l =>
      have hd : d ≠ '\"' := by
        intro h
        exact htl (by simp [h])
      simp [dropQuotes, hd]
  | succ k ih => simp [List.replicate_succ, dropQuotes, ih]

/-- One scan step of `parse_line` on a maximal quote run of length `n` that
reaches the run-measuring branch (the mid-field unquoted-quote guard does not
apply). -/
theorem parse_line_run (sep : Char) (m : Mode) (n : Nat) (tl : List Char) (in_q : Bool)
    (field : List Char) (hn : 1 ≤ n) (htl : tl.head? ≠ some '\"')
    (hguard : in_q = true ∨ field = []) :
    parse_line sep m (List.replicate n '\"' ++ tl) in_q field =
      if in_q = true ∧ n % 2 = 1 ∧ head_ne_sep tl sep ∧ m = Mode.loose then
        parse_line sep m tl in_q (field ++ List.replicate n '\"')
      else
        if (if n % 2 = 1 then !in_q else in_q) = false ∧ head_ne_sep tl sep ∧ m = Mode.strict then
          ([], some ParseError.invalidSeparatorAfterQuotedField)
        else
          parse_line sep m tl (if n % 2 = 1 then !in_q else in_q)
            (field ++ List.replicate
              ((n - (if n % 2 = 1 then 1 else if field = [] then 2 else 0)) / 2) '\"') := by
  obtain ⟨k, rfl⟩ : ∃ k, n = k + 1 := ⟨n - 1, by omega⟩
  rw [List.replicate_succ, List.cons_append, parse_line]
  have hguard' : ¬(in_q = false ∧ List.replicate (k + 1) '\"' ≠ ([] : List Char) ∧ field ≠ []) := by
    rcases hguard with h | h <;> simp [h, List.replicate_succ]
  simp only [if_pos rfl, countQuotes_replicate k tl htl, dropQuotes_replicate k tl htl]
  rcases hguard with h | h <;> simp [h, List.replicate_succ]

theorem parse_line_nil (sep : Char) (m : Mode) (in_q : Bool) (field : List Char) :
    parse_line sep m [] in_q field = ([field], none) := by
  rw [parse_line]

/-- One scan step on an unquoted separator: the accumulator is flushed. -/
theorem parse_line_sep_step (sep : Char) (m : Mode) (rest field : List Char)
    (hsep : sep ≠ '\"') :
    parse_line sep m (sep :: rest) false field =
      (field :: (parse_line sep m rest false []).1, (parse_line sep m rest false []).2) := by
  rw [parse_line]
  simp [hsep]

/-- One scan step on a character that is not a quote, not an unquoted
separator and not a strict-mode unquoted newline: appended literally. -/
theorem parse_line_other_step (sep : Char) (m : Mode) (c : Char) (rest field : List Char)
    (in_q : Bool) (hq : c ≠ '\"') (hs : ¬(c = sep ∧ in_q = false))
    (hnl : ¬(c = '\n' ∧ in_q = false ∧ m = Mode.strict)) :
    parse_line sep m (c :: rest) in_q field = parse_line sep m rest in_q (field ++ [c]) := by
  rw [parse_line]
  simp only [if_neg hq, if_neg hs, if_neg hnl]

/-- One scan step on a quote met outside quotes with a non-empty accumulator:
literal append in loose mode, error in strict mode. -/
theorem parse_line_quote_guard (sep : Char) (m : Mode) (rest field : List Char)
    (hf : field ≠ []) :
    parse_line sep m ('\"' :: rest) false field =
      if m = Mode.loose then parse_line sep m rest false (field ++ ['\"'])
      else ([], some ParseError.unexpectedQuoteInUnquotedField) := by
  rw [parse_line]
  simp [hf]

/-- One scan step on an unquoted newline in strict mode. -/
theorem parse_line_newline_step (sep : Char) (rest field : List Char)
    (hsep : sep ≠ '\n') :
    parse_line sep Mode.strict ('\n' :: rest) false field =
      ([], some ParseError.newlineOutsideQuotedField) := by
  rw [parse_line]
  simp [hsep]
  intro h
  exact absurd h.symm hsep

/-- Every character list is either all quotes or a quote run followed by a
non-quote character and a remainder. -/
theorem quote_decomp (f : List Char) :
    (∃ k, f = List.replicate k '\"') ∨
      (∃ k c g, c ≠ '\"' ∧ f = List.replicate k '\"' ++ c :: g) := by
  induction f with
  | nil => exact Or.inl ⟨0, rfl⟩
  | cons c rest ih =>
    by_cases hc : c = '\"'
    · subst hc
      rcases ih with ⟨k, rfl⟩ | ⟨k, d, g, hd, rfl⟩
      · exact Or.inl ⟨k + 1, by simp [List.replicate_succ]⟩
      · exact Or.inr ⟨k + 1, d, g, hd, by simp [List.replicate_succ]⟩
    · exact Or.inr ⟨0, c, rest, hc, by simp⟩

theorem not_head_ne_sep_of (rest : List Char) (sep : Char)
    (h : rest.head? = none ∨ rest.head? = some sep) : ¬head_ne_sep rest sep := by
  cases rest with
  | nil => simp [head_ne_sep]
  | cons d l =>
    rcases h with h | h
    · simp at h
    · simp at h
      simp [head_ne_sep, h]

theorem head_ne_quote_of (rest : List Char) (sep : Char) (hsep : sep ≠ '\"')
    (h : rest.head? = none ∨ rest.head? = some sep) : rest.head? ≠ some '\"' := by
  rcases h with h | h <;> simp [h]
  exact hsep

theorem escape_quotes_replicate (k : Nat) :
    escape_quotes (List.replicate k '\"') = List.replicate (2 * k) '\"' := by
  induction k with
  | zero => simp [escape_quotes]
  | succ k ih =>
    have h2 : 2 * (k + 1) = 2 * k + 1 + 1 := by omega
    simp [List.replicate_succ, escape_quotes, ih, h2]

theorem escape_quotes_cons_ne (c : Char) (g : List Char) (hc : c ≠ '\"') :
    escape_quotes (c :: g) = c :: escape_quotes g := by
  simp [escape_quotes, hc]

theorem escape_quotes_append (a b : List Char) :
    escape_quotes (a ++ b) = escape_quotes a ++ escape_quotes b := by
  induction a with
  | nil => simp [escape_quotes]
  | cons c rest ih =>
    by_cases hc : c = '\"' <;> simp [escape_quotes, hc, ih]

theorem replicate_quote_shift (n : Nat) (l : List Char) :
    List.replicate n '\"' ++ '\"' :: l = List.replicate (n + 1) '\"' ++ l := by
  rw [List.replicate_succ']
  simp

/-- Closing an open quoted field whose remaining content is quotes only:
the encoded tail `escape_quotes (replicate k quote) ++ quote :: rest` is one
odd run that closes the field and contributes `k` literal quotes. -/
theorem parse_close_allq (sep : Char) (hsep : sep ≠ '\"') (k : Nat) (acc rest : List Char)
    (hrest : rest.head? = none ∨ rest.head? = some sep) :
    parse_line sep Mode.strict (escape_quotes (List.replicate k '\"') ++ '\"' :: rest) true acc =
      parse_line sep Mode.strict rest false (acc ++ List.replicate k '\"') := by
  have hinput : escape_quotes (List.replicate k '\"') ++ '\"' :: rest
      = List.replicate (2 * k + 1) '\"' ++ rest := by
    rw [escape_quotes_replicate, replicate_quote_shift]
  rw [hinput, parse_line_run sep Mode.strict (2 * k + 1) rest true acc (by omega)
    (head_ne_quote_of rest sep hsep hrest) (Or.inl rfl)]
  have hmod : (2 * k + 1) % 2 = 1 := by omega
  have hns := not_head_ne_sep_of rest sep hrest
  simp [hmod, hns, show (2 * k + 1 - 1) / 2 = k by omega]

/-- Scanning the encoded remainder of a quoted field from inside the quotes:
`escape_quotes f` then the closing quote leaves the state outside quotes with
`f` appended to the accumulator, and scanning continues on `rest`. -/
theorem parse_escaped (sep : Char) (hsep : sep ≠ '\"') :
    ∀ (fuel : Nat) (f acc rest : List Char), f.length ≤ fuel → acc ≠ [] →
      (rest.head? = none ∨ rest.head? = some sep) →
      parse_line sep Mode.strict (escape_quotes f ++ '\"' :: rest) true acc =
        parse_line sep Mode.strict rest false (acc ++ f) := by
  intro fuel
  induction fuel with
  | zero =>
    intro f acc rest hlen hacc hrest
    have hf : f = [] := List.length_eq_zero.mp (Nat.le_zero.mp hlen)
    subst hf
    simpa using parse_close_allq sep hsep 0 acc rest hrest
  | succ fuel ih =>
    intro f acc rest hlen hacc hrest
    rcases quote_decomp f with ⟨k, rfl⟩ | ⟨k, c, g, hc, rfl⟩
    · exact parse_close_allq sep hsep k acc rest hrest
    · cases k with
      | zero =>
        simp only [List.replicate, List.nil_append]
        rw [escape_quotes_cons_ne c g hc, List.cons_append,
          parse_line_other_step sep Mode.strict c _ acc true hc (by simp) (by simp),
          ih g (acc ++ [c]) rest (by simp at hlen; omega) (by simp) hrest]
        simp
      | succ k' =>
        have hinput : escape_quotes (List.replicate (k' + 1) '\"' ++ c :: g) ++ '\"' :: rest
            = List.replicate (2 * (k' + 1)) '\"'
                ++ (c :: (escape_quotes g ++ '\"' :: rest)) := by
          rw [escape_quotes_append, escape_quotes_replicate, escape_quotes_cons_ne c g hc]
          simp
        rw [hinput, parse_line_run sep Mode.strict (2 * (k' + 1)) _ true acc (by omega)
          (by simp [hc]) (Or.inl rfl)]
        have hmod : ¬(2 * (k' + 1)) % 2 = 1 := by omega
        simp only [hmod, if_false, false_and, and_false, if_neg (by simp : ¬(True ∧ False))]
        rw [if_neg (by simp), if_neg hacc]
        simp only [Nat.sub_zero, show (2 * (k' + 1)) / 2 = k' + 1 by omega]
        rw [parse_line_other_step sep Mode.strict c _ _ true hc (by simp) (by simp),
          ih g (acc ++ List.replicate (k' + 1) '\"' ++ [c]) rest
            (by simp at hlen ⊢; omega) (by simp) hrest]
        simp

/-- Scanning one encoded field from the initial state of a field: the whole
quoted encoding is consumed, the accumulator ends up holding exactly the
original field, the state is outside quotes, and scanning continues on
`rest`, whose first character (if any) is the separator. -/
theorem parse_encode_field (sep : Char) (hsep : sep ≠ '\"') (f rest : List Char)
    (hrest : rest.head? = none ∨ rest.head? = some sep) :
    parse_line sep Mode.strict (encode_field f ++ rest) false [] =
      parse_line sep Mode.strict rest false f := by
  rcases quote_decomp f with ⟨k, rfl⟩ | ⟨k, c, g, hc, rfl⟩
  · have hinput : encode_field (List.replicate k '\"') ++ rest
        = List.replicate (2 * k + 2) '\"' ++ rest := by
      simp only [encode_field, escape_quotes_replicate, List.cons_append, List.append_assoc,
        List.singleton_append]
      rw [replicate_quote_shift, ← List.cons_append, ← List.replicate_succ]
      simp
    rw [hinput, parse_line_run sep Mode.strict (2 * k + 2) rest false [] (by omega)
      (head_ne_quote_of rest sep hsep hrest) (Or.inr rfl)]
    have hmod : ¬(2 * k + 2) % 2 = 1 := by omega
    have hns := not_head_ne_sep_of rest sep hrest
    simp [hmod, hns, show (2 * k + 2 - 2) / 2 = k by omega]
  · have hinput : encode_field (List.replicate k '\"' ++ c :: g) ++ rest
        = List.replicate (2 * k + 1) '\"' ++ (c :: (escape_quotes g ++ '\"' :: rest)) := by
      simp only [encode_field, escape_quotes_append, escape_quotes_replicate,
        escape_quotes_cons_ne c g hc]
      rw [show (2 * k + 1) = (2 * k) + 1 from rfl, List.replicate_succ]
      simp
    rw [hinput, parse_line_run sep Mode.strict (2 * k + 1) _ false [] (by omega)
      (by simp [hc]) (Or.inr rfl)]
    have hmod : (2 * k + 1) % 2 = 1 := by omega
    rw [if_neg (by simp)]
    rw [if_neg (by simp [hmod])]
    simp only [hmod, if_true, ite_true, Bool.not_false, List.nil_append,
      show (2 * k + 1 - 1) / 2 = k by omega]
    rw [parse_line_other_step sep Mode.strict c _ (List.replicate k '\"') true hc
        (by simp) (by simp),
      parse_escaped sep hsep g.length g (List.replicate k '\"' ++ [c]) rest le_rfl
        (by simp) hrest]
    simp

/-- Scanning a whole encoded line of one or more fields returns exactly those
fields and no error. -/
theorem parse_encode_line (sep : Char) (hsep : sep ≠ '\"') :
    ∀ fields : List (List Char), fields ≠ [] →
      parse_line sep Mode.strict (encode_line fields [sep]) false [] = (fields, none) := by
  intro fields
  induction fields with
  | nil => intro h; exact absurd rfl h
  | cons f rest ih =>
    intro _
    cases rest with
    | nil =>
      have : encode_line [f] [sep] = encode_field f ++ [] := by simp [encode_line]
      rw [this, parse_encode_field sep hsep f [] (Or.inl rfl), parse_line_nil]
    | cons f2 fs =>
      have : encode_line (f :: f2 :: fs) [sep]
          = encode_field f ++ (sep :: encode_line (f2 :: fs) [sep]) := by
        simp [encode_line]
      rw [this, parse_encode_field sep hsep f _ (Or.inr (by simp)),
        parse_line_sep_step sep Mode.strict _ f hsep, ih (by simp)]

/-- In loose mode no scan ever throws: the error component is always `none`. -/
theorem parse_line_loose_snd (sep : Char) (s : List Char) (in_q : Bool) (field : List Char) :
    (parse_line sep Mode.loose s in_q field).2 = none := by
  induction s, in_q, field using parse_line.induct sep Mode.loose
  case case1 => rw [parse_line]
  case case2 =>
    rename_i h1 _ ih
    rw [parse_line, if_pos rfl, if_pos h1, if_pos rfl]
    exact ih
  case case3 =>
    rename_i h1 h2
    exact absurd rfl h2
  case case4 =>
    rename_i h1 _ _ h2 ih
    rw [parse_line, if_pos rfl, if_neg h1, if_pos h2]
    exact ih
  case case5 =>
    rename_i h1 _ _ h2 _ h3
    exact absurd h3.2.2 (by simp)
  case case6 =>
    rename_i h1 _ _ h2 _ _ _ h3 ih
    rw [parse_line, if_pos rfl, if_neg h1, if_neg h2]
    dsimp only
    rw [if_neg (by simp)]
    exact ih
  case case7 =>
    rename_i hq hs ih
    rw [parse_line, if_neg hq, if_pos hs]
    simpa using ih
  case case8 =>
    rename_i hq hs hnl
    exact absurd hnl.2.2 (by simp)
  case case9 =>
    rename_i hq hs hnl ih
    rw [parse_line, if_neg hq, if_neg hs, if_neg hnl]
    exact ih

/-- A quote at the scan position starts a maximal run of `countQuotes rest + 1`
quotes followed by `dropQuotes rest`. -/
theorem cons_quote_decomp (rest : List Char) :
    '\"' :: rest = List.replicate (countQuotes rest + 1) '\"' ++ dropQuotes rest := by
  induction rest with
  | nil => simp [countQuotes, dropQuotes]
  | cons d l ih =>
    by_cases hd : d = '\"'
    · subst hd
      rw [countQuotes, if_pos rfl, dropQuotes, if_pos rfl]
      calc '\"' :: '\"' :: l
          = '\"' :: (List.replicate (countQuotes l + 1) '\"' ++ dropQuotes l) := by rw [← ih]
        _ = List.replicate (countQuotes l + 1 + 1) '\"' ++ dropQuotes l := by
            rw [List.replicate_succ (n := countQuotes l + 1)]
            simp
    · simp [countQuotes, dropQuotes, hd]

theorem dropQuotes_head (l : List Char) : (dropQuotes l).head? ≠ some '\"' := by
  induction l with
  | nil => simp [dropQuotes]
  | cons d rest ih =>
    by_cases hd : d = '\"' <;> simp [dropQuotes, hd, ih]

theorem guard_to_or {in_q : Bool} {field : List Char} (h : ¬(in_q = false ∧ field ≠ [])) :
    in_q = true ∨ field = [] := by
  cases in_q with
  | true => exact Or.inl rfl
  | false =>
    push_neg at h
    exact Or.inr (h rfl)

/-- With the line terminator itself as separator, the separator branch wins:
the newline error can never be raised, even in strict mode. -/
theorem parse_line_newline_sep (s : List Char) (in_q : Bool) (field : List Char) :
    (parse_line '\n' Mode.strict s in_q field).2 ≠ some ParseError.newlineOutsideQuotedField := by
  induction s, in_q, field using parse_line.induct '\n' Mode.strict
  case case1 => rw [parse_line]; simp
  case case2 =>
    rename_i h1 h2 _
    exact absurd h2 (by simp)
  case case3 =>
    rename_i h1 h2
    rw [parse_line, if_pos rfl, if_pos h1, if_neg h2]
    simp
  case case4 =>
    rename_i h1 _ _ h2 _
    exact absurd h2.2.2.2 (by simp)
  case case5 =>
    rename_i rest in_q field h1 _ _ h2 _ h3
    rw [cons_quote_decomp rest,
      parse_line_run '\n' Mode.strict (countQuotes rest + 1) (dropQuotes rest) in_q field
        (by omega) (dropQuotes_head rest) (guard_to_or h1)]
    rw [if_neg (by simp)]
    have h3' : (if (countQuotes rest + 1) % 2 = 1 then !in_q else in_q) = false
        ∧ head_ne_sep (dropQuotes rest) '\n' ∧ Mode.strict = Mode.strict := h3
    rw [if_pos h3']
    simp
  case case6 =>
    rename_i rest in_q field h1 _ _ h2 _ _ _ h3 ih
    rw [cons_quote_decomp rest,
      parse_line_run '\n' Mode.strict (countQuotes rest + 1) (dropQuotes rest) in_q field
        (by omega) (dropQuotes_head rest) (guard_to_or h1)]
    rw [if_neg (by simp)]
    have h3' : ¬((if (countQuotes rest + 1) % 2 = 1 then !in_q else in_q) = false
        ∧ head_ne_sep (dropQuotes rest) '\n' ∧ Mode.strict = Mode.strict) := h3
    rw [if_neg h3']
    exact ih
  case case7 =>
    rename_i hq hs ih
    rw [parse_line, if_neg hq, if_pos hs]
    simpa using ih
  case case8 =>
    rename_i hq hs hnl
    exact absurd ⟨hnl.1, hnl.2.1⟩ hs
  case case9 =>
    rename_i hq hs hnl ih
    rw [parse_line, if_neg hq, if_neg hs, if_neg hnl]
    exact ih

/-- `sep_count` on a maximal quote run: same branch structure as
`parse_line_run`. -/
theorem sep_count_run (sep : Char) (m : Mode) (n : Nat) (tl : List Char) (in_q : Bool)
    (field : List Char) (hn : 1 ≤ n) (htl : tl.head? ≠ some '\"')
    (hguard : in_q = true ∨ field = []) :
    sep_count sep m (List.replicate n '\"' ++ tl) in_q field =
      if in_q = true ∧ n % 2 = 1 ∧ head_ne_sep tl sep ∧ m = Mode.loose then
        sep_count sep m tl in_q (field ++ List.replicate n '\"')
      else
        if (if n % 2 = 1 then !in_q else in_q) = false ∧ head_ne_sep tl sep ∧ m = Mode.strict then
          0
        else
          sep_count sep m tl (if n % 2 = 1 then !in_q else in_q)
            (field ++ List.replicate
              ((n - (if n % 2 = 1 then 1 else if field = [] then 2 else 0)) / 2) '\"') := by
  obtain ⟨k, rfl⟩ : ∃ k, n = k + 1 := ⟨n - 1, by omega⟩
  rw [List.replicate_succ, List.cons_append, sep_count]
  simp only [if_pos rfl, countQuotes_replicate k tl htl, dropQuotes_replicate k tl htl]
  rcases hguard with h | h <;> simp [h, List.replicate_succ]

/-- On a successful scan the number of fields written is the number of
unquoted separators encountered plus one. -/
theorem parse_line_length (sep : Char) (m : Mode) :
    ∀ (s : List Char) (in_q : Bool) (field : List Char),
      (parse_line sep m s in_q field).2 = none →
      (parse_line sep m s in_q field).1.length = sep_count sep m s in_q field + 1 := by
  intro s in_q field
  induction s, in_q, field using parse_line.induct sep m
  case case1 =>
    intro _
    rw [parse_line, sep_count]
    rfl
  case case2 =>
    rename_i h1 h2 ih
    intro h
    rw [parse_line, if_pos rfl, if_pos h1, if_pos h2] at h ⊢
    rw [sep_count, if_pos rfl, if_pos h1, if_pos h2]
    exact ih h
  case case3 =>
    rename_i h1 h2
    intro h
    rw [parse_line, if_pos rfl, if_pos h1, if_neg h2] at h
    simp at h
  case case4 =>
    rename_i rest in_q field h1 _ _ h2 ih
    intro h
    rw [parse_line, if_pos rfl, if_neg h1, if_pos h2] at h ⊢
    rw [sep_count, if_pos rfl, if_neg h1, if_pos h2]
    exact ih h
  case case5 =>
    rename_i rest in_q field h1 _ _ h2 _ h3
    intro h
    rw [cons_quote_decomp rest,
      parse_line_run sep m (countQuotes rest + 1) (dropQuotes rest) in_q field (by omega)
        (dropQuotes_head rest) (guard_to_or h1)] at h
    have h2' : ¬(in_q = true ∧ (countQuotes rest + 1) % 2 = 1
        ∧ head_ne_sep (dropQuotes rest) sep ∧ m = Mode.loose) := h2
    have h3' : (if (countQuotes rest + 1) % 2 = 1 then !in_q else in_q) = false
        ∧ head_ne_sep (dropQuotes rest) sep ∧ m = Mode.strict := h3
    rw [if_neg h2', if_pos h3'] at h
    simp at h
  case case6 =>
    rename_i rest in_q field h1 _ _ h2 _ _ _ h3 ih
    intro h
    have h2' : ¬(in_q = true ∧ (countQuotes rest + 1) % 2 = 1
        ∧ head_ne_sep (dropQuotes rest) sep ∧ m = Mode.loose) := h2
    have h3' : ¬((if (countQuotes rest + 1) % 2 = 1 then !in_q else in_q) = false
        ∧ head_ne_sep (dropQuotes rest) sep ∧ m = Mode.strict) := h3
    rw [cons_quote_decomp rest] at h ⊢
    rw [parse_line_run sep m (countQuotes rest + 1) (dropQuotes rest) in_q field (by omega)
        (dropQuotes_head rest) (guard_to_or h1)] at h ⊢
    rw [sep_count_run sep m (countQuotes rest + 1) (dropQuotes rest) in_q field (by omega)
        (dropQuotes_head rest) (guard_to_or h1)]
    simp only [if_neg h2', if_neg h3'] at h ⊢
    exact ih h
  case case7 =>
    rename_i hq hs ih
    intro h
    rw [parse_line, if_neg hq, if_pos hs] at h ⊢
    rw [sep_count, if_neg hq, if_pos hs]
    simp only [List.length_cons]
    simp only [] at h
    rw [ih h]
  case case8 =>
    rename_i hq hs hnl
    intro h
    rw [parse_line, if_neg hq, if_neg hs, if_pos hnl] at h
    simp at h
  case case9 =>
    rename_i hq hs hnl ih
    intro h
    rw [parse_line, if_neg hq, if_neg hs, if_neg hnl] at h ⊢
    rw [sep_count, if_neg hq, if_neg hs, if_neg hnl]
    exact ih h

/-- The sequence of configurations (remaining input, `in_quotes`, accumulator)
visited by the `parse_line` scan, in order, ending at the first error or at
end of input. -/
def parse_configs (sep : Char) (pmode : Mode) :
    List Char → Bool → List Char → List (List Char × Bool × List Char)
  | [], in_quotes, field => [([], in_quotes, field)]
  | c :: rest, in_quotes, field =>
    ((c :: rest, in_quotes, field)) ::
    (if c = '\"' then
      if in_quotes = false ∧ field ≠ [] then
        if pmode = Mode.loose then
          parse_configs sep pmode rest in_quotes (field ++ ['\"'])
        else
          []
      else
        let num_quotes := countQuotes rest + 1
        let tl := dropQuotes rest
        if in_quotes = true ∧ num_quotes % 2 = 1 ∧ head_ne_sep tl sep ∧ pmode = Mode.loose then
          parse_configs sep pmode tl in_quotes (field ++ List.replicate num_quotes '\"')
        else
          let ignore_quotes : Nat :=
            if num_quotes % 2 = 1 then 1 else if field = [] then 2 else 0
          let field2 := field ++ List.replicate ((num_quotes - ignore_quotes) / 2) '\"'
          let in_quotes2 := if num_quotes % 2 = 1 then !in_quotes else in_quotes
          if in_quotes2 = false ∧ head_ne_sep tl sep ∧ pmode = Mode.strict then
            []
          else
            parse_configs sep pmode tl in_quotes2 field2
    else if c = sep ∧ in_quotes = false then
      parse_configs sep pmode rest in_quotes []
    else if c = '\n' ∧ in_quotes = false ∧ pmode = Mode.strict then
      []
    else
      parse_configs sep pmode rest in_quotes (field ++ [c]))
termination_by s _ _ => s.length
decreasing_by
  all_goals simp only [List.length_cons]
  · omega
  · exact Nat.lt_succ_of_le (dropQuotes_length_le rest)
  · exact Nat.lt_succ_of_le (dropQuotes_length_le rest)
  · omega
  · omega

/-- A configuration sitting at a maximal quote run that is processed by the
run-measuring branch, leaves the scanner outside a quoted field, and is
followed by a character that exists and is not the separator. -/
def invalid_sep_config (sep : Char) : List Char × Bool × List Char → Prop
  | ('\"' :: rest, in_q, field) =>
    ¬(in_q = false ∧ field ≠ []) ∧
    (if (countQuotes rest + 1) % 2 = 1 then !in_q else in_q) = false ∧
    head_ne_sep (dropQuotes rest) sep
  | _ => False

theorem exists_mem_cons {α : Type} (a : α) (l : List α) (p : α → Prop) :
    (∃ x ∈ a :: l, p x) ↔ p a ∨ ∃ x ∈ l, p x := by
  constructor
  · rintro ⟨x, hx, hp⟩
    rcases List.mem_cons.mp hx with rfl | hx
    · exact Or.inl hp
    · exact Or.inr ⟨x, hx, hp⟩
  · rintro (hp | ⟨x, hx, hp⟩)
    · exact ⟨a, List.mem_cons_self a l, hp⟩
    · exact ⟨x, List.mem_cons_of_mem a hx, hp⟩

/-- In strict mode the scan ends with `InvalidSeparatorAfterQuotedField`
exactly when some visited configuration is an invalid-separator
configuration. -/
theorem parse_line_invalidSep_iff (sep : Char) :
    ∀ (s : List Char) (in_q : Bool) (field : List Char),
      (parse_line sep Mode.strict s in_q field).2
          = some ParseError.invalidSeparatorAfterQuotedField ↔
        ∃ cfg ∈ parse_configs sep Mode.strict s in_q field, invalid_sep_config sep cfg := by
  intro s in_q field
  induction s, in_q, field using parse_line.induct sep Mode.strict
  case case1 =>
    rw [parse_line, parse_configs]
    simp [invalid_sep_config]
  case case2 =>
    rename_i h1 h2 _
    exact absurd h2 (by simp)
  case case3 =>
    rename_i h1 h2
    rw [parse_line, if_pos rfl, if_pos h1, if_neg h2]
    rw [parse_configs, if_pos rfl, if_pos h1, if_neg h2]
    simp [invalid_sep_config, h1]
  case case4 =>
    rename_i h1 _ _ h2 _
    exact absurd h2.2.2.2 (by simp)
  case case5 =>
    rename_i rest in_q field h1 _ _ h2 _ h3
    have h2' : ¬(in_q = true ∧ (countQuotes rest + 1) % 2 = 1
        ∧ head_ne_sep (dropQuotes rest) sep ∧ Mode.strict = Mode.loose) := h2
    have h3' : (if (countQuotes rest + 1) % 2 = 1 then !in_q else in_q) = false
        ∧ head_ne_sep (dropQuotes rest) sep ∧ Mode.strict = Mode.strict := h3
    rw [cons_quote_decomp rest,
      parse_line_run sep Mode.strict (countQuotes rest + 1) (dropQuotes rest) in_q field
        (by omega) (dropQuotes_head rest) (guard_to_or h1), if_neg h2', if_pos h3']
    rw [← cons_quote_decomp rest]
    rw [parse_configs, if_pos rfl, if_neg h1]
    dsimp only
    rw [if_neg h2', if_pos h3']
    rw [exists_mem_cons]
    simp only [List.not_mem_nil, false_and, exists_false, or_false]
    constructor
    · intro _
      exact ⟨h1, h3'.1, h3'.2.1⟩
    · intro _
      trivial
  case case6 =>
    rename_i rest in_q field h1 _ _ h2 _ _ _ h3 ih
    have h2' : ¬(in_q = true ∧ (countQuotes rest + 1) % 2 = 1
        ∧ head_ne_sep (dropQuotes rest) sep ∧ Mode.strict = Mode.loose) := h2
    have h3' : ¬((if (countQuotes rest + 1) % 2 = 1 then !in_q else in_q) = false
        ∧ head_ne_sep (dropQuotes rest) sep ∧ Mode.strict = Mode.strict) := h3
    rw [cons_quote_decomp rest,
      parse_line_run sep Mode.strict (countQuotes rest + 1) (dropQuotes rest) in_q field
        (by omega) (dropQuotes_head rest) (guard_to_or h1), if_neg h2', if_neg h3']
    rw [← cons_quote_decomp rest]
    rw [parse_configs, if_pos rfl, if_neg h1]
    dsimp only
    rw [if_neg h2', if_neg h3']
    rw [exists_mem_cons]
    have hcfg : ¬invalid_sep_config sep ('\"' :: rest, in_q, field) := by
      intro hbad
      rw [invalid_sep_config] at hbad
      exact h3' ⟨hbad.2.1, hbad.2.2, rfl⟩
    constructor
    · intro hl
      exact Or.inr (ih.mp hl)
    · rintro (hbad | hrec)
      · exact absurd hbad hcfg
      · exact ih.mpr hrec
  case case7 =>
    rename_i c rest in_q field hq hs ih
    rw [parse_line, if_neg hq, if_pos hs]
    rw [parse_configs, if_neg hq, if_pos hs]
    rw [exists_mem_cons]
    have hcfg : ¬invalid_sep_config sep (c :: rest, in_q, field) := by
      intro hbad
      rw [invalid_sep_config.eq_def] at hbad
      split at hbad
      · rename_i heq
        injection heq with h₁ h₂
        injection h₁ with hc _
        exact hq hc
      · exact hbad
    have : ((field :: (parse_line sep Mode.strict rest in_q []).1,
        (parse_line sep Mode.strict rest in_q []).2)).2
        = (parse_line sep Mode.strict rest in_q []).2 := rfl
    rw [this, ih]
    constructor
    · exact Or.inr
    · rintro (hbad | hrec)
      · exact absurd hbad hcfg
      · exact hrec
  case case8 =>
    rename_i c rest in_q field hq hs hnl
    rw [parse_line, if_neg hq, if_neg hs, if_pos hnl]
    rw [parse_configs, if_neg hq, if_neg hs, if_pos hnl]
    rw [exists_mem_cons]
    have hcfg : ¬invalid_sep_config sep (c :: rest, in_q, field) := by
      intro hbad
      rw [invalid_sep_config.eq_def] at hbad
      split at hbad
      · rename_i heq
        injection heq with h₁ h₂
        injection h₁ with hc _
        exact hq hc
      · exact hbad
    simp [hcfg]
  case case9 =>
    rename_i c rest in_q field hq hs hnl ih
    rw [parse_line, if_neg hq, if_neg hs, if_neg hnl]
    rw [parse_configs, if_neg hq, if_neg hs, if_neg hnl]
    rw [exists_mem_cons, ih]
    have hcfg : ¬invalid_sep_config sep (c :: rest, in_q, field) := by
      intro hbad
      rw [invalid_sep_config.eq_def] at hbad
      split at hbad
      · rename_i heq
        injection heq with h₁ h₂
        injection h₁ with hc _
        exact hq hc
      · exact hbad
    constructor
    · exact Or.inr
    · rintro (hbad | hrec)
      · exact absurd hbad hcfg
      · exact hrec

theorem escape_quotes_eq_flatMap (s : List Char) :
    escape_quotes s = s.flatMap fun c => if c = '\"' then [c, c] else [c] := by
  induction s with
  | nil => simp [escape_quotes]
  | cons c rest ih =>
    by_cases hc : c = '\"' <;> simp [escape_quotes, hc, ih]

theorem intercalate_two (sep a b : List Char) (l : List (List Char)) :
    List.intercalate sep (a :: b :: l) = a ++ sep ++ List.intercalate sep (b :: l) := by
  simp [List.intercalate, List.intersperse]

/-- `encode_line` is the intercalation of the encoded fields with the
separator sequence. -/
theorem encode_line_intercalate (fields : List (List Char)) (sep : List Char) :
    encode_line fields sep = List.intercalate sep (fields.map encode_field) := by
  induction fields with
  | nil => simp [encode_line, List.intercalate]
  | cons f rest ih =>
    cases rest with
    | nil => simp [encode_line, List.intercalate]
    | cons f2 fs =>
      rw [encode_line, List.map_cons, List.map_cons, intercalate_two, ← List.map_cons, ← ih]

/-- C1 counterexample: encoding the empty sequence of fields yields the empty
line, which decodes to one empty field, not to the empty sequence. -/
theorem c1_empty_sequence_counterexample :
    decode (encode_line [] [',']) ',' Mode.strict = Except.ok [[]] ∧
      (Except.ok [[]] : Except ParseError (List (List Char))) ≠ Except.ok [] := by
  constructor
  · show decode [] ',' Mode.strict = Except.ok [[]]
    unfold decode
    rw [parse_line_nil]
  · simp

/-- C1 (corrected to nonempty sequences): encoding a nonempty sequence of
fields, none containing a line terminator, with separator `","` and decoding
the line with separator `','` in strict mode returns exactly the original
fields. -/
theorem c1_roundtrip (fields : List (List Char)) (hne : fields ≠ [])
    (hnl : ∀ f ∈ fields, '\n' ∉ f) :
    decode (encode_line fields [',']) ',' Mode.strict = Except.ok fields := by
  unfold decode
  rw [parse_encode_line ',' (by decide) fields hne]

/-- C1 witness: a concrete round trip with an embedded quote, an empty field
and an embedded separator. -/
theorem c1_roundtrip_witness :
    decode (encode_line [['a', '\"'], [], [',']] [',']) ',' Mode.strict
      = Except.ok [['a', '\"'], [], [',']] :=
  c1_roundtrip [['a', '\"'], [], [',']] (by decide) (by decide)

/-- C2 (confirmed): loose mode is total — decoding never raises any error and
returns exactly the fields written to the sink. -/
theorem c2_loose_total (s : List Char) (sep : Char) :
    decode s sep Mode.loose = Except.ok (sink_fields s sep Mode.loose) := by
  have h := parse_line_loose_snd sep s false []
  unfold decode sink_fields
  rcases hp : parse_line sep Mode.loose s false [] with ⟨fs, e⟩
  rw [hp] at h
  simp only at h
  subst h
  rfl

/-- C3 (confirmed): on a successful decode the number of returned fields is
the number of unquoted separators encountered plus one, the result is never
empty, and at end of input the accumulator is flushed regardless of the
`in_quotes` flag (so an unterminated quoted field is not an error). -/
theorem c3_field_count (s : List Char) (sep : Char) (m : Mode) (fs : List (List Char))
    (h : decode s sep m = Except.ok fs) :
    fs.length = sep_count sep m s false [] + 1 ∧ fs ≠ [] ∧
      ∀ (in_q : Bool) (field : List Char),
        parse_line sep m [] in_q field = ([field], none) := by
  have hkey : fs.length = sep_count sep m s false [] + 1 := by
    unfold decode at h
    rcases hp : parse_line sep m s false [] with ⟨fs', e⟩
    rw [hp] at h
    cases e with
    | none =>
      have h2 : fs' = fs := by simpa using h
      have h3 := parse_line_length sep m s false [] (by rw [hp])
      rw [hp] at h3
      simpa [h2] using h3
    | some err => simp at h
  refine ⟨hkey, ?_, fun in_q field => parse_line_nil sep m in_q field⟩
  intro hfs
  rw [hfs] at hkey
  simp at hkey

/-- C3 witness: decoding `a,b` yields two fields, one separator. -/
theorem c3_field_count_witness :
    ([['a'], ['b']] : List (List Char)).length
        = sep_count ',' Mode.strict ['a', ',', 'b'] false [] + 1 ∧
      ([['a'], ['b']] : List (List Char)) ≠ [] ∧
      ∀ (in_q : Bool) (field : List Char),
        parse_line ',' Mode.strict [] in_q field = ([field], none) :=
  c3_field_count ['a', ',', 'b'] ',' Mode.strict [['a'], ['b']]
    (by simp [decode, parse_line])

/-- C4 counterexample: on input `a,b"` in strict mode the call fails, yet the
field `a`, completed before the error position, has already been written to
the caller's output sink. -/
theorem c4_partial_output_counterexample :
    parse_line ',' Mode.strict ['a', ',', 'b', '\"'] false []
        = ([['a']], some ParseError.unexpectedQuoteInUnquotedField) ∧
      sink_fields ['a', ',', 'b', '\"'] ',' Mode.strict = [['a']] ∧
      sink_fields ['a', ',', 'b', '\"'] ',' Mode.strict ≠ [] := by
  refine ⟨?_, ?_, ?_⟩ <;> simp [sink_fields, parse_line]

/-- C4 (corrected): a failure is fatal to the call — the call returns the
error and no decoded sequence — but fields completed before the error
position remain with the caller's output sink. -/
theorem c4_error_fatal (s : List Char) (sep : Char) (m : Mode) (e : ParseError)
    (h : (parse_line sep m s false []).2 = some e) :
    decode s sep m = Except.error e := by
  unfold decode
  rcases hp : parse_line sep m s false [] with ⟨fs, e'⟩
  rw [hp] at h
  simp only at h
  subst h
  rfl

/-- C4 witness: the failing call on `a,b"` returns the error. -/
theorem c4_error_fatal_witness :
    decode ['a', ',', 'b', '\"'] ',' Mode.strict
      = Except.error ParseError.unexpectedQuoteInUnquotedField :=
  c4_error_fatal ['a', ',', 'b', '\"'] ',' Mode.strict
    ParseError.unexpectedQuoteInUnquotedField (by simp [parse_line])

/-- C5 (confirmed): an odd maximal quote run processed by the run-measuring
branch, when the loose retraction does not apply, toggles the `in_quotes`
flag exactly once and contributes `(n - 1) / 2` literal quotes; on every
other step — a quote hitting the mid-field guard, a separator, or any other
character — the flag passed to the continuation is unchanged. -/
theorem c5_odd_quote_run :
    (∀ (sep : Char) (m : Mode) (n : Nat) (tl : List Char) (in_q : Bool) (field : List Char),
        1 ≤ n → n % 2 = 1 → tl.head? ≠ some '\"' → (in_q = true ∨ field = []) →
        ¬(in_q = true ∧ head_ne_sep tl sep ∧ m = Mode.loose) →
        parse_line sep m (List.replicate n '\"' ++ tl) in_q field =
          if (!in_q) = false ∧ head_ne_sep tl sep ∧ m = Mode.strict then
            ([], some ParseError.invalidSeparatorAfterQuotedField)
          else
            parse_line sep m tl (!in_q) (field ++ List.replicate ((n - 1) / 2) '\"')) ∧
    (∀ (sep : Char) (m : Mode) (n : Nat) (tl : List Char) (in_q : Bool) (field : List Char),
        1 ≤ n → n % 2 = 0 → tl.head? ≠ some '\"' → (in_q = true ∨ field = []) →
        parse_line sep m (List.replicate n '\"' ++ tl) in_q field =
          if in_q = false ∧ head_ne_sep tl sep ∧ m = Mode.strict then
            ([], some ParseError.invalidSeparatorAfterQuotedField)
          else
            parse_line sep m tl in_q
              (field ++ List.replicate ((n - if field = [] then 2 else 0) / 2) '\"')) ∧
    (∀ (sep : Char) (m : Mode) (rest field : List Char), field ≠ [] →
        parse_line sep m ('\"' :: rest) false field =
          if m = Mode.loose then parse_line sep m rest false (field ++ ['\"'])
          else ([], some ParseError.unexpectedQuoteInUnquotedField)) ∧
    (∀ (sep : Char) (m : Mode) (rest field : List Char), sep ≠ '\"' →
        parse_line sep m (sep :: rest) false field =
          (field :: (parse_line sep m rest false []).1,
            (parse_line sep m rest false []).2)) ∧
    (∀ (sep : Char) (m : Mode) (c : Char) (rest field : List Char) (in_q : Bool),
        c ≠ '\"' → ¬(c = sep ∧ in_q = false) → ¬(c = '\n' ∧ in_q = false ∧ m = Mode.strict) →
        parse_line sep m (c :: rest) in_q field = parse_line sep m rest in_q (field ++ [c])) := by
  refine ⟨?_, ?_, ?_, ?_, ?_⟩
  · intro sep m n tl in_q field hn hodd htl hguard hretract
    rw [parse_line_run sep m n tl in_q field hn htl hguard,
      if_neg (fun hx => hretract ⟨hx.1, hx.2.2.1, hx.2.2.2⟩)]
    simp [hodd]
  · intro sep m n tl in_q field hn heven htl hguard
    have hmod : ¬n % 2 = 1 := by omega
    rw [parse_line_run sep m n tl in_q field hn htl hguard,
      if_neg (fun hx => hmod hx.2.1)]
    simp [hmod]
  · intro sep m rest field hf
    exact parse_line_quote_guard sep m rest field hf
  · intro sep m rest field hsep
    exact parse_line_sep_step sep m rest field hsep
  · intro sep m c rest field in_q hq hs hnl
    exact parse_line_other_step sep m c rest field in_q hq hs hnl

/-- C5 witness: a closing run of three quotes inside a quoted field followed
by the separator toggles the flag off and contributes one literal quote. -/
theorem c5_odd_quote_run_witness :
    parse_line ',' Mode.strict (List.replicate 3 '\"' ++ [',', 'x']) true ['a'] =
      if (!true) = false ∧ head_ne_sep [',', 'x'] ',' ∧ Mode.strict = Mode.strict then
        ([], some ParseError.invalidSeparatorAfterQuotedField)
      else
        parse_line ',' Mode.strict [',', 'x'] (!true)
          (['a'] ++ List.replicate ((3 - 1) / 2) '\"') :=
  c5_odd_quote_run.1 ',' Mode.strict 3 [',', 'x'] true ['a'] (by omega) (by omega)
    (by decide) (Or.inl rfl) (by decide)

/-- C2 witness: a concrete loose decode succeeds. -/
theorem c2_loose_total_witness :
    decode ['a', '\"', 'b'] ',' Mode.loose
      = Except.ok (sink_fields ['a', '\"', 'b'] ',' Mode.loose) :=
  c2_loose_total ['a', '\"', 'b'] ','

/-- C6 (confirmed): an even maximal quote run leaves the `in_quotes` flag
unchanged and contributes `n / 2` literal quotes, or `(n - 2) / 2` when the
field accumulator is empty; the two-quote line decodes to one empty field and
the four-quote line to one field holding a single quote, in both modes. -/
theorem c6_even_quote_run :
    (∀ (sep : Char) (m : Mode) (n : Nat) (tl : List Char) (in_q : Bool) (field : List Char),
        1 ≤ n → n % 2 = 0 → tl.head? ≠ some '\"' → (in_q = true ∨ field = []) →
        parse_line sep m (List.replicate n '\"' ++ tl) in_q field =
          if in_q = false ∧ head_ne_sep tl sep ∧ m = Mode.strict then
            ([], some ParseError.invalidSeparatorAfterQuotedField)
          else
            parse_line sep m tl in_q
              (field ++ List.replicate ((n - if field = [] then 2 else 0) / 2) '\"')) ∧
    (∀ m : Mode, decode ['\"', '\"'] ',' m = Except.ok [[]]) ∧
    (∀ m : Mode, decode ['\"', '\"', '\"', '\"'] ',' m = Except.ok [['\"']]) := by
  refine ⟨?_, ?_, ?_⟩
  · intro sep m n tl in_q field hn heven htl hguard
    have hmod : ¬n % 2 = 1 := by omega
    rw [parse_line_run sep m n tl in_q field hn htl hguard,
      if_neg (fun hx => hmod hx.2.1)]
    simp [hmod]
  · intro m
    cases m <;> simp [decode, parse_line, countQuotes, dropQuotes, head_ne_sep]
  · intro m
    cases m <;> simp [decode, parse_line, countQuotes, dropQuotes, head_ne_sep]

/-- C6 witness: the four-quote field at end of input contributes one literal
quote with the flag left outside quotes. -/
theorem c6_even_quote_run_witness :
    (parse_line ',' Mode.strict (List.replicate 4 '\"' ++ []) false [] =
      if false = false ∧ head_ne_sep [] ',' ∧ Mode.strict = Mode.strict then
        ([], some ParseError.invalidSeparatorAfterQuotedField)
      else
        parse_line ',' Mode.strict [] false
          (([] : List Char) ++ List.replicate ((4 - if ([] : List Char) = [] then 2 else 0) / 2) '\"')) ∧
    decode ['\"', '\"'] ',' Mode.loose = Except.ok [[]] :=
  ⟨c6_even_quote_run.1 ',' Mode.strict 4 [] false [] (by omega) (by omega) (by decide)
      (Or.inr rfl),
    c6_even_quote_run.2.1 Mode.loose⟩

/-- C7 (confirmed): in loose mode, an odd quote run met inside a quoted field
whose following character exists and is not the separator is retracted — the
flag stays set, all `n` quotes are appended literally, and scanning
continues. -/
theorem c7_loose_retraction (sep : Char) (n : Nat) (tl field : List Char)
    (hn : 1 ≤ n) (hodd : n % 2 = 1) (htl : tl.head? ≠ some '\"')
    (hns : head_ne_sep tl sep) :
    parse_line sep Mode.loose (List.replicate n '\"' ++ tl) true field =
      parse_line sep Mode.loose tl true (field ++ List.replicate n '\"') := by
  rw [parse_line_run sep Mode.loose n tl true field hn htl (Or.inl rfl),
    if_pos ⟨rfl, hodd, hns, rfl⟩]

/-- C7 witness: a run of three quotes inside a field followed by `x` is kept
literally. -/
theorem c7_loose_retraction_witness :
    parse_line ',' Mode.loose (List.replicate 3 '\"' ++ ['x']) true ['a'] =
      parse_line ',' Mode.loose ['x'] true (['a'] ++ List.replicate 3 '\"') :=
  c7_loose_retraction ',' 3 ['x'] ['a'] (by omega) (by omega) (by decide) (by decide)

/-- C8 (confirmed): a strict decode fails with
`InvalidSeparatorAfterQuotedField` exactly when some visited configuration
sits at a maximal quote run, processed by the run-measuring branch, that
leaves the scanner outside a quoted field while the next character exists
and is not the separator. -/
theorem c8_invalid_separator_iff (s : List Char) (sep : Char) :
    decode s sep Mode.strict
        = Except.error ParseError.invalidSeparatorAfterQuotedField ↔
      ∃ cfg ∈ parse_configs sep Mode.strict s false [], invalid_sep_config sep cfg := by
  rw [← parse_line_invalidSep_iff sep s false []]
  unfold decode
  rcases hp : parse_line sep Mode.strict s false [] with ⟨fs, e⟩
  cases e with
  | none => simp
  | some err => simp

/-- C8 witness: on `""x` the error is raised and the initial configuration is
the invalid-separator configuration. -/
theorem c8_invalid_separator_iff_witness :
    (decode ['\"', '\"', 'x'] ',' Mode.strict
        = Except.error ParseError.invalidSeparatorAfterQuotedField) ↔
      ∃ cfg ∈ parse_configs ',' Mode.strict ['\"', '\"', 'x'] false [],
        invalid_sep_config ',' cfg :=
  c8_invalid_separator_iff ['\"', '\"', 'x'] ','

theorem escape_quotes_length (s : List Char) :
    (escape_quotes s).length = s.length + s.count '\"' := by
  induction s with
  | nil => simp [escape_quotes]
  | cons c rest ih =>
    by_cases hc : c = '\"' <;>
      simp [escape_quotes, hc, ih, List.count_cons] <;> omega

/-- C9 (confirmed): `encode_field` is one quote, the field with every quote
doubled, one quote, and its length is the field length plus two plus the
number of quotes (the reserved capacity); `encode_line` intercalates the
encoded fields with the separator sequence and emits nothing for no
fields. -/
theorem c9_encoder_contract :
    (∀ s : List Char, encode_field s
        = ['\"'] ++ (s.flatMap fun c => if c = '\"' then [c, c] else [c]) ++ ['\"']) ∧
    (∀ s : List Char, (encode_field s).length = s.length + 2 + s.count '\"') ∧
    (∀ (fields : List (List Char)) (sep : List Char),
        encode_line fields sep = List.intercalate sep (fields.map encode_field)) ∧
    (∀ sep : List Char, encode_line [] sep = []) := by
  refine ⟨?_, ?_, encode_line_intercalate, fun sep => rfl⟩
  · intro s
    rw [encode_field, escape_quotes_eq_flatMap]
    simp
  · intro s
    rw [encode_field]
    simp [escape_quotes_length]
    omega

/-- C9 witness: encoding `a"b`. -/
theorem c9_encoder_contract_witness :
    encode_field ['a', '\"', 'b']
        = ['\"'] ++ (['a', '\"', 'b'].flatMap fun c => if c = '\"' then [c, c] else [c])
          ++ ['\"'] :=
  c9_encoder_contract.1 ['a', '\"', 'b']

/-- C10 (confirmed): with the newline character as separator, strict decode
never fails with `NewlineOutsideQuotedField`, and `a\nb` splits into two
fields. -/
theorem c10_newline_separator :
    (∀ s : List Char,
        decode s '\n' Mode.strict ≠ Except.error ParseError.newlineOutsideQuotedField) ∧
      decode ['a', '\n', 'b'] '\n' Mode.strict = Except.ok [['a'], ['b']] := by
  constructor
  · intro s h
    have hne := parse_line_newline_sep s false []
    unfold decode at h
    rcases hp : parse_line '\n' Mode.strict s false [] with ⟨fs, e⟩
    rw [hp] at h hne
    cases e with
    | none => simp at h
    | some err =>
      simp only at h hne
      injection h with h
      exact hne (by rw [h])
  · simp [decode, parse_line]

/-- C10 witness: a concrete strict decode with the newline separator. -/
theorem c10_newline_separator_witness :
    decode ['x', '\n'] '\n' Mode.strict ≠ Except.error ParseError.newlineOutsideQuotedField :=
  c10_newline_separator.1 ['x', '\n']
